import Mathlib

/-!
Shallow embedding of the stack client of `pkg/portainer/client/stack.go` and of the
tool-handler boundary of `internal/mcp/stack.go` in the portainer-mcp repository.

Pure Go functions (`mergeEnvOverrides`, `parseStackEnv`, `shouldFallbackToEdge`,
`isEdgeStackErrorMessage`, `parseStackEnvOverrides`) are translated directly as Lean
functions.  The façade operations (`GetStacks`, `UpdateStack`, `GetStackEnvNames`,
`HandleUpdateStack`) perform network / SDK calls; these are embedded by passing the
outcome of each outbound call explicitly (a "world" record) and returning, next to the
result, a record of which remote primitives were invoked and with which arguments.
Strings are Lean `String`s; Go's `strings.ToLower` is modelled on the ASCII range,
which covers every marker substring and message the classifier inspects.
-/

/-- Environment variable entry (`models.StackEnvVar`: one `Name`/`Value` pair). -/
structure StackEnvVar where
  name : String
  value : String
deriving Repr, DecidableEq

/-- ASCII lowercasing of one character, modelling `strings.ToLower` on the ASCII range. -/
def lowerChar (c : Char) : Char :=
  if 65 ≤ c.toNat ∧ c.toNat ≤ 90 then Char.ofNat (c.toNat + 32) else c

/-- Lowercase a string character by character (ASCII model of `strings.ToLower`). -/
def toLowerAscii (s : String) : String :=
  String.mk (s.data.map lowerChar)

/-- Whether the first character list is a prefix of the second (Boolean, executable). -/
def charsPrefix : List Char → List Char → Bool
  | [], _ => true
  | _ :: _, [] => false
  | a :: as, b :: bs => a == b && charsPrefix as bs

/-- Whether `pat` occurs as a contiguous run inside the second list (`strings.Contains` model). -/
def charsSub (pat : List Char) : List Char → Bool
  | [] => charsPrefix pat []
  | b :: rest => charsPrefix pat (b :: rest) || charsSub pat rest

/-- Substring containment on strings: `strContains s pat` models `strings.Contains(s, pat)`. -/
def strContains (s pat : String) : Bool :=
  charsSub pat.data s.data

/-- Errors surfaced by the HTTP helpers of `stack.go`: `apiStatusError` (a non-2xx status
with its body text, lines 591-601) or any other Go error, kept as its message string. -/
inductive ClientError where
  | statusErr (code : Nat) (body : String)
  | genericErr (msg : String)
deriving Repr, DecidableEq

/-- The `Error()` string of a `ClientError` (`apiStatusError.Error`, lines 596-601;
a generic error renders as its message). -/
def ClientError.errString : ClientError → String
  | .statusErr code body =>
    if body = "" then "api returned status " ++ toString code
    else "api returned status " ++ toString code ++ ": " ++ body
  | .genericErr msg => msg

/-- `isEdgeStackErrorMessage` (lines 808-811): lowercase the message and look for either
of the two edge-subsystem marker substrings. -/
def isEdgeStackErrorMessage (message : String) : Bool :=
  let lower := toLowerAscii message
  strContains lower "edgestackupdate" || strContains lower "edge stack"

/-- `shouldFallbackToEdge` (lines 794-806): a status-aware error falls back on code 404 or
an edge-marked body; every error additionally falls back when its `Error()` string is
edge-marked.  `errors.As` finds the status error exactly in the `statusErr` case. -/
def shouldFallbackToEdge (e : ClientError) : Bool :=
  match e with
  | .statusErr code body =>
    if code = 404 then true
    else if isEdgeStackErrorMessage body then true
    else isEdgeStackErrorMessage (ClientError.statusErr code body).errString
  | .genericErr msg => isEdgeStackErrorMessage (ClientError.genericErr msg).errString

/-- Body text of an error as the spec's classifier policy reads it: the body of a
status-aware error; a plain error has no body. -/
def ClientError.bodyText : ClientError → String
  | .statusErr _ body => body
  | .genericErr _ => ""

/-- Classifier policy as the spec states it: status code "not found", or a marker
substring in the body text or in the string form of the error. -/
def specShouldFallback (e : ClientError) : Bool :=
  (match e with
   | .statusErr code _ => code = 404
   | .genericErr _ => false)
  || isEdgeStackErrorMessage e.bodyText || isEdgeStackErrorMessage e.errString

/-! ## Env merge engine (`mergeEnvOverrides`, lines 645-690) -/

/-- Write `value` under key `name` in an association list, modelling a Go map store
(`overrideValues[name] = value`): replace the existing binding or append a new one. -/
def assocSet : List (String × String) → String → String → List (String × String)
  | [], name, value => [(name, value)]
  | (k, w) :: rest, name, value =>
    if k = name then (name, value) :: rest
    else (k, w) :: assocSet rest name value

/-- Loop of lines 652-660: fold the overrides into the `overrideValues` map and the
`overrideOrder` first-seen list, skipping empty names; last value wins. -/
def buildOverrideMapsAux :
    List StackEnvVar → List (String × String) → List String →
    List (String × String) × List String
  | [], vals, order => (vals, order)
  | o :: rest, vals, order =>
    if o.name = "" then buildOverrideMapsAux rest vals order
    else if (List.lookup o.name vals).isSome then
      buildOverrideMapsAux rest (assocSet vals o.name o.value) order
    else
      buildOverrideMapsAux rest (assocSet vals o.name o.value) (order ++ [o.name])

/-- The `overrideValues` map and `overrideOrder` list built from the override input. -/
def buildOverrideMaps (overrides : List StackEnvVar) : List (String × String) × List String :=
  buildOverrideMapsAux overrides [] []

/-- Loop of lines 666-679: walk the existing entries, skipping empty names, substituting
the override value where one exists, threading the `seen` name set. -/
def walkExisting (vals : List (String × String)) :
    List StackEnvVar → List String → List StackEnvVar × List String
  | [], seen => ([], seen)
  | current :: rest, seen =>
    if current.name = "" then walkExisting vals rest seen
    else
      let out : StackEnvVar :=
        match List.lookup current.name vals with
        | some overrideValue => { name := current.name, value := overrideValue }
        | none => current
      let next := walkExisting vals rest (current.name :: seen)
      (out :: next.1, next.2)

/-- Loop of lines 681-687: append every override name not yet seen, threading `seen`. -/
def appendNew (vals : List (String × String)) : List String → List String → List StackEnvVar
  | [], _ => []
  | n :: rest, seen =>
    if seen.contains n then appendNew vals rest seen
    else { name := n, value := (List.lookup n vals).getD "" } :: appendNew vals rest (n :: seen)

/-- `mergeEnvOverrides` (lines 645-690): merge the server-stored environment with the
caller-supplied overrides. -/
def mergeEnvOverrides (existing overrides : List StackEnvVar) : List StackEnvVar :=
  if overrides.isEmpty then existing
  else
    let vo := buildOverrideMaps overrides
    if vo.1.isEmpty then existing
    else
      let walked := walkExisting vo.1 existing []
      walked.1 ++ appendNew vo.1 vo.2 walked.2

/-- Substitution applied to one existing entry during the merge walk, as the spec
describes it: emit the override value when the name is overridden, else unchanged. -/
def substOverride (vals : List (String × String)) (e : StackEnvVar) : StackEnvVar :=
  match List.lookup e.name vals with
  | some v => { name := e.name, value := v }
  | none => e

/-- Merge as the claim describes it, word for word: deduplicate the overrides, walk every
existing entry in order substituting overridden values, mark every existing name seen,
then append the unseen override names in first-seen order. -/
def mergeDescribed (existing overrides : List StackEnvVar) : List StackEnvVar :=
  if overrides.isEmpty then existing
  else
    let vo := buildOverrideMaps overrides
    existing.map (substOverride vo.1)
      ++ appendNew vo.1 vo.2 (existing.map (fun e => e.name))

/-- Merge as the amended claim describes it: as `mergeDescribed`, except that existing
entries with empty names are skipped by the walk (and do not mark a name as seen), and
that when deduplication leaves no override name at all the existing list is returned
unchanged. -/
def mergeAmended (existing overrides : List StackEnvVar) : List StackEnvVar :=
  if overrides.isEmpty then existing
  else
    let vo := buildOverrideMaps overrides
    if vo.1.isEmpty then existing
    else
      (existing.filter (fun e => e.name != "")).map (substOverride vo.1)
        ++ appendNew vo.1 vo.2 ((existing.filter (fun e => e.name != "")).map (fun e => e.name))

/-- The override names that are genuinely new: recorded in first-seen order by the
deduplication and not carried by any existing entry. -/
def newOverrideNames (existing overrides : List StackEnvVar) : List String :=
  (buildOverrideMaps overrides).2.filter
    (fun n => !((existing.map (fun e => e.name)).contains n))

/-! ## Env codec (`parseStackEnv`, lines 603-643) -/

/-- Raw JSON input for the stack `Env` field, abstracted to the cases `parseStackEnv`
distinguishes.  Modelled from the spec: the `models` package with the primary decode
target is not part of the sources, so the two encodings the server may emit are kept as
explicit variants — the primary shape, which the primary decode captures in full, and
the alternate shape, on which the primary decode leaves every Name and Value empty even
though values exist.  `undecodable` stands for bytes neither decode accepts. -/
inductive RawEnv where
  | nullOrEmpty
  | primaryShape (entries : List StackEnvVar)
  | altShape (entries : List StackEnvVar)
  | undecodable
deriving Repr, DecidableEq

/-- Modelled from the spec: outcome of `json.Unmarshal` into `[]models.StackEnvVar` (the
primary decode).  On the alternate shape it succeeds syntactically but leaves every
entry blank; on undecodable bytes it fails. -/
def primaryDecode : RawEnv → Option (List StackEnvVar)
  | .nullOrEmpty => some []
  | .primaryShape es => some es
  | .altShape es => some (es.map fun _ => { name := "", value := "" })
  | .undecodable => none

/-- Modelled from the spec: outcome of `json.Unmarshal` into `[]stackEnvEntryAlt` (the
alternate decode, lines 603-606).  Both shapes expose the same `Name`/`Value` field
names, so it captures the entries of either shape; it fails on undecodable bytes. -/
def altDecode : RawEnv → Option (List StackEnvVar)
  | .nullOrEmpty => some []
  | .primaryShape es => some es
  | .altShape es => some es
  | .undecodable => none

/-- `hasEnvValues` (lines 636-643): some entry carries a non-empty name or value. -/
def hasEnvValues (env : List StackEnvVar) : Bool :=
  env.any fun entry => entry.name != "" || entry.value != ""

/-- Alternate-decode tail of `parseStackEnv` (lines 620-633): decode failure is the
ParseError; an empty alternate list is the empty result; otherwise the entries are
converted field by field. -/
def parseStackEnvAlt (raw : RawEnv) : Except String (List StackEnvVar) :=
  match altDecode raw with
  | none => .error "failed to parse stack env"
  | some [] => .ok []
  | some alt => .ok alt

/-- `parseStackEnv` (lines 608-634): empty or `null` bytes are the empty result; a primary
decode that is empty or carries a real name or value is accepted; otherwise the
alternate decode is tried. -/
def parseStackEnv (raw : RawEnv) : Except String (List StackEnvVar) :=
  if raw = .nullOrEmpty then .ok []
  else
    match primaryDecode raw with
    | some env =>
      if env.length = 0 || hasEnvValues env then .ok env
      else parseStackEnvAlt raw
    | none => parseStackEnvAlt raw

/-- Whether an `Except` value is an error. -/
def exceptIsError : Except ε α → Bool
  | .error _ => true
  | .ok _ => false

deriving instance DecidableEq for Except

/-! ## Data model and conversions -/

/-- `models.RegularStack`: the record the REST list/detail surface returns. -/
structure RegularStack where
  id : Int
  name : String
  type : Int
  endpointId : Int
  creationDate : Int
  status : Int
deriving Repr, DecidableEq

/-- `models.EdgeStack` view used by the SDK surface: id, name, creation date, edge groups. -/
structure EdgeStack where
  id : Int
  name : String
  creationDate : Int
  edgeGroups : List Int
deriving Repr, DecidableEq

/-- `models.Stack`: the unified view handed to callers. -/
structure Stack where
  id : Int
  name : String
  createdAt : String
  environmentGroupIds : List Int
deriving Repr, DecidableEq

/-- Modelled from the spec: `models.ConvertRegularStackToStack` is not part of the
sources.  Per §3 it maps ID→ID, Name→Name, CreationDate→CreatedAt through the RFC3339
formatter (kept abstract as `fmtTime`), and an empty environment-group list. -/
def ConvertRegularStackToStack (fmtTime : Int → String) (s : RegularStack) : Stack :=
  { id := s.id, name := s.name, createdAt := fmtTime s.creationDate,
    environmentGroupIds := [] }

/-- Modelled from the spec: `models.ConvertEdgeStackToStack` is not part of the sources.
Per §3 it converts analogously, with the environment-group ids taken directly from the
edge-group list. -/
def ConvertEdgeStackToStack (fmtTime : Int → String) (s : EdgeStack) : Stack :=
  { id := s.id, name := s.name, createdAt := fmtTime s.creationDate,
    environmentGroupIds := s.edgeGroups }

/-- Server url and token fields of `PortainerClient` that gate the REST path. -/
structure ClientConfig where
  serverURL : String
  token : String
deriving Repr, DecidableEq

/-! ## GetStacks (lines 423-447) -/

/-- Outcomes of the two outbound list calls `GetStacks` may make. -/
structure ListWorld where
  regular : Except String (List RegularStack)
  edge : Except String (List EdgeStack)

/-- Errors `GetStacks` returns: the composite error naming both causes (line 436) or the
edge-specific error alone (line 438). -/
inductive StacksError where
  | composite (regMsg edgeMsg : String)
  | edgeOnly (edgeMsg : String)
deriving Repr, DecidableEq

/-- Result of `GetStacks` together with whether `ListEdgeStacks` was invoked. -/
structure StacksOutcome where
  result : Except StacksError (List Stack)
  edgeCalled : Bool
deriving Repr, DecidableEq

/-- `GetStacks` (lines 423-447): regular list first; a non-empty success is converted and
returned; otherwise the edge list is consulted, with the composite error when both
paths failed and the edge-specific error when only the edge path failed. -/
def GetStacks (fmtTime : Int → String) (w : ListWorld) : StacksOutcome :=
  match w.regular with
  | .ok regularStacks =>
    if regularStacks.length > 0 then
      { result := .ok (regularStacks.map (ConvertRegularStackToStack fmtTime)),
        edgeCalled := false }
    else
      match w.edge with
      | .error edgeErr => { result := .error (.edgeOnly edgeErr), edgeCalled := true }
      | .ok edgeStacks =>
        { result := .ok (edgeStacks.map (ConvertEdgeStackToStack fmtTime)),
          edgeCalled := true }
  | .error err =>
    match w.edge with
    | .error edgeErr => { result := .error (.composite err edgeErr), edgeCalled := true }
    | .ok edgeStacks =>
      { result := .ok (edgeStacks.map (ConvertEdgeStackToStack fmtTime)),
        edgeCalled := true }

/-! ## UpdateStack (lines 844-888) -/

/-- Outcomes of the outbound calls `UpdateStack` may make: the regular detail fetch
(endpoint id and parsed env), the regular PUT, and the edge SDK update. -/
structure UpdateWorld where
  details : Except ClientError (Int × List StackEnvVar)
  regUpdate : Except ClientError Unit
  edgeUpdate : Except String Unit

/-- Errors `UpdateStack` returns, one constructor per `return fmt.Errorf` site. -/
inductive UpdateError where
  | unsupportedOverrides
  | configOverrides
  | regularUpdateFailed (e : ClientError)
  | regularUpdateFailedEdgeAlso (e : ClientError) (edgeMsg : String)
  | detailsFailed (e : ClientError)
  | detailsFailedEdgeAlso (e : ClientError) (edgeMsg : String)
  | edgeUpdateFailed (edgeMsg : String)
deriving Repr, DecidableEq

/-- Result of `UpdateStack` together with which remote primitives were invoked:
whether the regular detail fetch ran, the env payload of the regular PUT if it ran,
and the arguments of the `UpdateEdgeStack` call if it was made. -/
structure UpdateOutcome where
  result : Except UpdateError Unit
  detailsFetched : Bool
  regUpdateEnv : Option (List StackEnvVar)
  edgeCall : Option (Int × String × List Int)
deriving Repr, DecidableEq

/-- `UpdateStack` (lines 844-888).  With url and token configured: fetch details, merge
the overrides, try the regular PUT; on a fallback-worthy failure reject when overrides
were supplied, else delegate to the edge update; surface other failures.  Without url
or token: reject when overrides were supplied, else delegate to the edge update. -/
def UpdateStack (cfg : ClientConfig) (w : UpdateWorld) (id : Int) (file : String)
    (environmentGroupIds : List Int) (envOverrides : List StackEnvVar) : UpdateOutcome :=
  if cfg.serverURL != "" && cfg.token != "" then
    match w.details with
    | .ok d =>
      let mergedEnv := mergeEnvOverrides d.2 envOverrides
      match w.regUpdate with
      | .ok _ =>
        { result := .ok (), detailsFetched := true, regUpdateEnv := some mergedEnv,
          edgeCall := none }
      | .error e =>
        if shouldFallbackToEdge e then
          if envOverrides.length > 0 then
            { result := .error .unsupportedOverrides, detailsFetched := true,
              regUpdateEnv := some mergedEnv, edgeCall := none }
          else
            match w.edgeUpdate with
            | .ok _ =>
              { result := .ok (), detailsFetched := true, regUpdateEnv := some mergedEnv,
                edgeCall := some (id, file, environmentGroupIds) }
            | .error edgeErr =>
              { result := .error (.regularUpdateFailedEdgeAlso e edgeErr),
                detailsFetched := true, regUpdateEnv := some mergedEnv,
                edgeCall := some (id, file, environmentGroupIds) }
        else
          { result := .error (.regularUpdateFailed e), detailsFetched := true,
            regUpdateEnv := some mergedEnv, edgeCall := none }
    | .error e =>
      if shouldFallbackToEdge e then
        if envOverrides.length > 0 then
          { result := .error .unsupportedOverrides, detailsFetched := true,
            regUpdateEnv := none, edgeCall := none }
        else
          match w.edgeUpdate with
          | .ok _ =>
            { result := .ok (), detailsFetched := true, regUpdateEnv := none,
              edgeCall := some (id, file, environmentGroupIds) }
          | .error edgeErr =>
            { result := .error (.detailsFailedEdgeAlso e edgeErr), detailsFetched := true,
              regUpdateEnv := none, edgeCall := some (id, file, environmentGroupIds) }
      else
        { result := .error (.detailsFailed e), detailsFetched := true,
          regUpdateEnv := none, edgeCall := none }
  else
    if envOverrides.length > 0 then
      { result := .error .configOverrides, detailsFetched := false, regUpdateEnv := none,
        edgeCall := none }
    else
      match w.edgeUpdate with
      | .ok _ =>
        { result := .ok (), detailsFetched := false, regUpdateEnv := none,
          edgeCall := some (id, file, environmentGroupIds) }
      | .error edgeErr =>
        { result := .error (.edgeUpdateFailed edgeErr), detailsFetched := false,
          regUpdateEnv := none, edgeCall := some (id, file, environmentGroupIds) }

/-! ## GetStackEnvNames (lines 520-544) -/

/-- Errors `GetStackEnvNames` returns. -/
inductive EnvNamesError where
  | configError
  | unsupportedError
  | detailsError (e : ClientError)
deriving Repr, DecidableEq

/-- Result of `GetStackEnvNames`; `edgeCalled` records that the function body contains no
edge SDK call on any path. -/
structure EnvNamesOutcome where
  result : Except EnvNamesError (List String)
  edgeCalled : Bool
deriving Repr, DecidableEq

/-- Loop of lines 533-541: collect the non-empty names in order, skipping repeats. -/
def envNamesLoop : List StackEnvVar → List String → List String
  | [], _ => []
  | entry :: rest, seen =>
    if entry.name = "" ∨ seen.contains entry.name then envNamesLoop rest seen
    else entry.name :: envNamesLoop rest (entry.name :: seen)

/-- `GetStackEnvNames` (lines 520-544): ConfigError without url or token; on a detail
fetch failure, UnsupportedError when fallback-worthy, the wrapped error otherwise; on
success the deduplicated non-empty names. -/
def GetStackEnvNames (cfg : ClientConfig)
    (details : Except ClientError (Int × List StackEnvVar)) : EnvNamesOutcome :=
  if cfg.serverURL = "" ∨ cfg.token = "" then
    { result := .error .configError, edgeCalled := false }
  else
    match details with
    | .error e =>
      if shouldFallbackToEdge e then
        { result := .error .unsupportedError, edgeCalled := false }
      else
        { result := .error (.detailsError e), edgeCalled := false }
    | .ok d => { result := .ok (envNamesLoop d.2 []), edgeCalled := false }

/-- Order-preserving deduplication keeping the first occurrence of each element, the way
the spec describes the returned name list: each element heads the result and every
later repeat of it is filtered out of the deduplicated tail. -/
def dedupFirst (l : List String) : List String :=
  l.foldr (fun x acc => x :: acc.filter (fun y => y != x)) []

/-! ## Tool-handler boundary (`internal/mcp/stack.go`) -/

/-- A JSON value at the override boundary, abstracted to what the handler inspects:
a string, or any non-string value. -/
inductive JVal where
  | str (s : String)
  | other
deriving Repr, DecidableEq

/-- One element of the `envOverrides` array: a JSON object (field map) or any
non-object value. -/
inductive JEntry where
  | obj (fields : List (String × JVal))
  | nonObj
deriving Repr, DecidableEq

/-- Checks of lines 155-168 on one entry: the entry must be an object, its `name` field a
non-empty string, its `value` field a string. -/
def parseEntry : JEntry → Except String StackEnvVar
  | .nonObj => .error "invalid env override"
  | .obj fields =>
    match List.lookup "name" fields with
    | some (.str n) =>
      if n = "" then .error "invalid env name"
      else
        match List.lookup "value" fields with
        | some (.str v) => .ok { name := n, value := v }
        | _ => .error "invalid env value"
    | _ => .error "invalid env name"

/-- Loop of lines 154-171: validate each entry in order, short-circuiting on the first
invalid one. -/
def parseStackEnvOverridesLoop :
    List JEntry → List StackEnvVar → Except String (List StackEnvVar)
  | [], acc => .ok acc
  | entry :: rest, acc =>
    match parseEntry entry with
    | .error msg => .error msg
    | .ok v => parseStackEnvOverridesLoop rest (acc ++ [v])

/-- `parseStackEnvOverrides` (lines 148-174).  Go slices distinguish nil from empty; the
`Option` wrapper keeps that distinction: `some []` is the explicitly allocated empty
non-nil slice of line 150. -/
def parseStackEnvOverrides (entries : List JEntry) :
    Except String (Option (List StackEnvVar)) :=
  if entries.length = 0 then .ok (some [])
  else
    match parseStackEnvOverridesLoop entries [] with
    | .error msg => .error msg
    | .ok result => .ok (some result)

/-- Spec-side validity of one override entry: an object carrying a non-empty string
`name` and a string `value`. -/
def entryValid : JEntry → Bool
  | .nonObj => false
  | .obj fields =>
    match List.lookup "name" fields, List.lookup "value" fields with
    | some (.str n), some (.str _) => n != ""
    | _, _ => false

/-- What the handler reports after the override-parsing step. -/
inductive HandlerResult where
  | invalidEnvOverrides (msg : String)
  | updateFailed
  | success
deriving Repr, DecidableEq

/-- Outcome of `HandleUpdateStack`: the arguments the client's `UpdateStack` was invoked
with, if it was invoked at all, and the reported result. -/
structure HandlerOutcome where
  updateCalled : Option (Int × String × List Int × Option (List StackEnvVar))
  result : HandlerResult
deriving Repr, DecidableEq

/-- `HandleUpdateStack` (lines 110-146), from the point where `id`, `file` and
`environmentGroupIds` have been parsed.  Modelled from the spec for the absent
`toolgen` package: `GetArrayOfObjects("envOverrides", false)` yields the empty array
when the parameter is absent, so an absent array enters as `[]`.  `updateResult` is
the outcome `s.cli.UpdateStack` would report if invoked. -/
def HandleUpdateStack (id : Int) (file : String) (environmentGroupIds : List Int)
    (envOverridesRaw : List JEntry) (updateResult : Except String Unit) : HandlerOutcome :=
  match parseStackEnvOverrides envOverridesRaw with
  | .error msg => { updateCalled := none, result := .invalidEnvOverrides msg }
  | .ok envOverrides =>
    match updateResult with
    | .error _ =>
      { updateCalled := some (id, file, environmentGroupIds, envOverrides),
        result := .updateFailed }
    | .ok _ =>
      { updateCalled := some (id, file, environmentGroupIds, envOverrides),
        result := .success }

/-! ## Helper lemmas -/

/-- The marker check rejects the empty message. -/
theorem isEdgeStackErrorMessage_empty : isEdgeStackErrorMessage "" = false := by decide

/-- Unfolding of `List.lookup` on a cons cell, phrased with propositional equality. -/
theorem lookup_cons_eq (n m b : String) (l : List (String × String)) :
    List.lookup n ((m, b) :: l) = if n = m then some b else List.lookup n l := by
  by_cases h : n = m
  · simp [List.lookup, h]
  · have hb : (n == m) = false := beq_eq_false_iff_ne.mpr h
    simp [List.lookup, hb, h]

/-- `assocSet` stores exactly one binding: the written key maps to the new value and
every other key is unchanged. -/
theorem assocSet_lookup (vals : List (String × String)) (n v m : String) :
    List.lookup m (assocSet vals n v) = if m = n then some v else List.lookup m vals := by
  induction vals with
  | nil => by_cases h : m = n <;> simp [assocSet, lookup_cons_eq, h]
  | cons kv rest ih =>
    obtain ⟨k, w⟩ := kv
    by_cases hk : k = n
    · subst hk
      by_cases hm : m = k <;> simp [assocSet, lookup_cons_eq, hm]
    · by_cases hm : m = k
      · subst hm
        simp [assocSet, hk, lookup_cons_eq, Ne.symm hk]
      · simp [assocSet, hk, lookup_cons_eq, hm, ih]

/-- The substitution keeps the entry's name. -/
theorem substOverride_name (vals : List (String × String)) (e : StackEnvVar) :
    (substOverride vals e).name = e.name := by
  unfold substOverride
  cases List.lookup e.name vals <;> rfl

/-- The emitted part of the merge walk is the map of the substitution over the existing
entries with non-empty names, independently of the threaded `seen` set. -/
theorem walkExisting_fst (vals : List (String × String)) (l : List StackEnvVar) :
    ∀ seen, (walkExisting vals l seen).1
      = (l.filter (fun e => e.name != "")).map (substOverride vals) := by
  induction l with
  | nil => intro seen; rfl
  | cons e rest ih =>
    intro seen
    by_cases h : e.name = ""
    · simp [walkExisting, h, ih]
    · simp [walkExisting, h, ih, substOverride]

/-- Membership in the `seen` set produced by the merge walk: the names of the walked
non-empty-named entries plus the initial set. -/
theorem walkExisting_snd_mem (vals : List (String × String)) (l : List StackEnvVar) :
    ∀ seen n, n ∈ (walkExisting vals l seen).2
      ↔ (n ∈ (l.filter (fun e => e.name != "")).map (fun e => e.name) ∨ n ∈ seen) := by
  induction l with
  | nil => intro seen n; simp [walkExisting]
  | cons e rest ih =>
    intro seen n
    by_cases h : e.name = ""
    · simp [walkExisting, h, ih]
    · simp only [walkExisting, h, if_false, ite_false]
      rw [ih (e.name :: seen) n]
      have hb : (e.name != "") = true := by simp [h]
      simp only [List.filter_cons, hb, if_true, List.map_cons, List.mem_cons]
      tauto

/-- The append loop only inspects the membership of the `seen` set: two seen sets with
the same members produce the same appended entries. -/
theorem appendNew_congr (vals : List (String × String)) (order : List String) :
    ∀ s₁ s₂, (∀ n, n ∈ s₁ ↔ n ∈ s₂) → appendNew vals order s₁ = appendNew vals order s₂ := by
  induction order with
  | nil => intro s₁ s₂ _; rfl
  | cons n rest ih =>
    intro s₁ s₂ hmem
    have hc : s₁.contains n = s₂.contains n := by simp [hmem n]
    cases h : s₂.contains n with
    | true =>
      have h1 : s₁.contains n = true := by rw [hc]; exact h
      simp only [appendNew, h, h1, if_true]
      exact ih s₁ s₂ hmem
    | false =>
      have h1 : s₁.contains n = false := by rw [hc]; exact h
      have htail : appendNew vals rest (n :: s₁) = appendNew vals rest (n :: s₂) := by
        refine ih _ _ ?_
        intro m
        simp only [List.mem_cons]
        exact or_congr Iff.rfl (hmem m)
      simp only [appendNew, h, h1, Bool.false_eq_true, if_false, ite_false, htail]

/-- Invariant of the override-deduplication fold: the first-seen order list stays
duplicate-free and every recorded name is non-empty and bound in the value map. -/
theorem buildOverrideMapsAux_inv (ovs : List StackEnvVar) :
    ∀ (vals : List (String × String)) (order : List String),
      order.Nodup → (∀ n ∈ order, n ≠ "" ∧ (List.lookup n vals).isSome) →
      (buildOverrideMapsAux ovs vals order).2.Nodup ∧
        ∀ n ∈ (buildOverrideMapsAux ovs vals order).2,
          n ≠ "" ∧ (List.lookup n (buildOverrideMapsAux ovs vals order).1).isSome := by
  induction ovs with
  | nil => intro vals order hnd hinv; exact ⟨hnd, hinv⟩
  | cons o rest ih =>
    intro vals order hnd hinv
    by_cases h : o.name = ""
    · simp only [buildOverrideMapsAux, h, if_true]
      exact ih vals order hnd hinv
    · by_cases hs : (List.lookup o.name vals).isSome
      · simp only [buildOverrideMapsAux, h, hs, if_false, if_true, ite_false, ite_true]
        refine ih _ order hnd ?_
        intro n hn
        refine ⟨(hinv n hn).1, ?_⟩
        rw [assocSet_lookup]
        by_cases hno : n = o.name
        · simp [hno]
        · simp only [hno, if_false, ite_false]
          exact (hinv n hn).2
      · simp only [buildOverrideMapsAux, h, hs, if_false, ite_false]
        refine ih _ (order ++ [o.name]) ?_ ?_
        · have hnotmem : o.name ∉ order := by
            intro hmem
            exact hs (hinv o.name hmem).2
          simp [List.nodup_append, hnd, hnotmem]
        · intro n hn
          rcases List.mem_append.1 hn with hn | hn
          · refine ⟨(hinv n hn).1, ?_⟩
            rw [assocSet_lookup]
            by_cases hno : n = o.name
            · simp [hno]
            · simp only [hno, if_false, ite_false]
              exact (hinv n hn).2
          · have : n = o.name := by simpa using hn
            subst this
            refine ⟨h, ?_⟩
            rw [assocSet_lookup]
            simp

/-- On a duplicate-free order list the append loop is the filter of the unseen names,
each paired with its override value. -/
theorem appendNew_filter (vals : List (String × String)) (order : List String)
    (hnd : order.Nodup) :
    ∀ seen, appendNew vals order seen
      = (order.filter (fun n => !seen.contains n)).map
          (fun n => { name := n, value := (List.lookup n vals).getD "" }) := by
  induction order with
  | nil => intro seen; rfl
  | cons n rest ih =>
    intro seen
    have hnotmem : n ∉ rest := (List.nodup_cons.1 hnd).1
    have hndrest : rest.Nodup := (List.nodup_cons.1 hnd).2
    cases h : seen.contains n with
    | true =>
      simp only [appendNew, h, if_true, List.filter_cons, Bool.not_true, ite_false,
        Bool.false_eq_true, if_false]
      exact ih hndrest seen
    | false =>
      simp only [appendNew, h, Bool.false_eq_true, if_false, ite_false, List.filter_cons,
        Bool.not_false, if_true, ite_true, List.map_cons]
      rw [ih hndrest (n :: seen)]
      have hfil : rest.filter (fun m => !(n :: seen).contains m)
          = rest.filter (fun m => !seen.contains m) := by
        refine List.filter_congr ?_
        intro m hm
        have hmn : m ≠ n := fun hEq => hnotmem (hEq ▸ hm)
        simp [hmn]
      rw [hfil]

/-- The source merge equals the amended spec-side description: substitution mapped over
the non-empty-named existing entries, followed by the unseen override names. -/
theorem mergeEnvOverrides_eq_amended (existing overrides : List StackEnvVar) :
    mergeEnvOverrides existing overrides = mergeAmended existing overrides := by
  unfold mergeEnvOverrides mergeAmended
  by_cases ho : overrides.isEmpty
  · simp [ho]
  · simp only [ho, Bool.false_eq_true, if_false, ite_false]
    by_cases hv : (buildOverrideMaps overrides).1.isEmpty
    · simp [hv]
    · simp only [hv, Bool.false_eq_true, if_false, ite_false]
      rw [walkExisting_fst]
      congr 1
      refine appendNew_congr _ _ _ _ ?_
      intro n
      rw [walkExisting_snd_mem]
      simp

/-- When the deduplicated override map is empty the merge returns existing unchanged. -/
theorem mergeEnvOverrides_of_isEmpty (existing overrides : List StackEnvVar)
    (hv : (buildOverrideMaps overrides).1.isEmpty = true) :
    mergeEnvOverrides existing overrides = existing := by
  unfold mergeEnvOverrides
  by_cases ho : overrides.isEmpty
  · simp [ho]
  · simp [ho, hv]

/-- The override order list is duplicate-free and all its names are non-empty and bound. -/
theorem buildOverrideMaps_inv (overrides : List StackEnvVar) :
    (buildOverrideMaps overrides).2.Nodup ∧
      ∀ n ∈ (buildOverrideMaps overrides).2,
        n ≠ "" ∧ (List.lookup n (buildOverrideMaps overrides).1).isSome := by
  exact buildOverrideMapsAux_inv overrides [] [] List.nodup_nil (by intro n hn; cases hn)

/-- For a non-empty name, membership among the names of the non-empty-named entries is
membership among all the names. -/
theorem mem_filter_names_iff (existing : List StackEnvVar) (n : String) (hn : n ≠ "") :
    (n ∈ (existing.filter (fun e => e.name != "")).map (fun e => e.name))
      ↔ n ∈ existing.map (fun e => e.name) := by
  simp only [List.mem_map, List.mem_filter]
  constructor
  · rintro ⟨e, ⟨he, _⟩, rfl⟩
    exact ⟨e, he, rfl⟩
  · rintro ⟨e, he, rfl⟩
    refine ⟨e, ⟨he, ?_⟩, rfl⟩
    simp [bne_iff_ne]
    exact hn

/-- A non-empty deduplicated override map can only come from a non-empty override list. -/
theorem overrides_not_isEmpty (overrides : List StackEnvVar)
    (hv : (buildOverrideMaps overrides).1.isEmpty = false) :
    overrides.isEmpty = false := by
  cases ho : overrides.isEmpty
  · rfl
  · exfalso
    have : overrides = [] := List.isEmpty_iff.1 ho
    subst this
    simp [buildOverrideMaps, buildOverrideMapsAux] at hv

/-- Length of the merge when the deduplicated override map is non-empty: the non-empty-
named existing entries plus the genuinely new override names. -/
theorem mergeEnvOverrides_length (existing overrides : List StackEnvVar)
    (hv : (buildOverrideMaps overrides).1.isEmpty = false) :
    (mergeEnvOverrides existing overrides).length
      = (existing.filter (fun e => e.name != "")).length
        + (newOverrideNames existing overrides).length := by
  rw [mergeEnvOverrides_eq_amended]
  unfold mergeAmended
  have ho : overrides.isEmpty = false := overrides_not_isEmpty overrides hv
  simp only [ho, hv, Bool.false_eq_true, if_false, ite_false]
  rw [List.length_append, List.length_map]
  congr 1
  rw [appendNew_filter _ _ (buildOverrideMaps_inv overrides).1, List.length_map]
  unfold newOverrideNames
  congr 1
  refine List.filter_congr ?_
  intro n hn
  have hne := ((buildOverrideMaps_inv overrides).2 n hn).1
  simp [mem_filter_names_iff existing n hne]

/-- Every non-empty name stored on the server survives the merge. -/
theorem mergeEnvOverrides_preserves_names (existing overrides : List StackEnvVar) :
    ∀ x ∈ existing, x.name ≠ "" →
      ∃ y ∈ mergeEnvOverrides existing overrides, y.name = x.name := by
  intro x hx hxn
  cases hv : (buildOverrideMaps overrides).1.isEmpty with
  | true =>
    rw [mergeEnvOverrides_of_isEmpty _ _ hv]
    exact ⟨x, hx, rfl⟩
  | false =>
    rw [mergeEnvOverrides_eq_amended]
    unfold mergeAmended
    have ho : overrides.isEmpty = false := overrides_not_isEmpty overrides hv
    simp only [ho, hv, Bool.false_eq_true, if_false, ite_false]
    refine ⟨substOverride (buildOverrideMaps overrides).1 x, ?_, substOverride_name _ _⟩
    refine List.mem_append_left _ ?_
    refine List.mem_map.2 ⟨x, ?_, rfl⟩
    refine List.mem_filter.2 ⟨hx, ?_⟩
    simp [bne_iff_ne]
    exact hxn

/-! ## Claim theorems -/

/-- C2 (counterexample): the walk described by the claim emits existing entries with empty
names unchanged, but `mergeEnvOverrides` drops them: on existing `[{"",x}]` with
override `[{A,1}]` the code returns `[{A,1}]` while the described walk returns
`[{"",x},{A,1}]`. -/
theorem mergeEnvOverrides_described_counterexample :
    mergeEnvOverrides [⟨"", "x"⟩] [⟨"A", "1"⟩]
      ≠ mergeDescribed [⟨"", "x"⟩] [⟨"A", "1"⟩] := by decide

/-- C2 (amended): merge returns existing unchanged when overrides is empty and also when
deduplication (ignoring empty names, last value wins, first-seen order) leaves no
override name; otherwise it walks existing in original order skipping entries with
empty names, emitting each remaining entry with its override value substituted when
overridden and unchanged otherwise, then appends every override name not already seen,
once each, in first-seen order; and merge([{A,1},{B,2}], [{B,9},{C,3}]) =
[{A,1},{B,9},{C,3}]. -/
theorem mergeEnvOverrides_matches_amended_description :
    (∀ existing overrides : List StackEnvVar,
       mergeEnvOverrides existing overrides = mergeAmended existing overrides) ∧
    mergeEnvOverrides [⟨"A", "1"⟩, ⟨"B", "2"⟩] [⟨"B", "9"⟩, ⟨"C", "3"⟩]
      = [⟨"A", "1"⟩, ⟨"B", "9"⟩, ⟨"C", "3"⟩] :=
  ⟨mergeEnvOverrides_eq_amended, by decide⟩

/-- C3 (counterexample): with existing `[{"",z}]` and override `[{B,2}]` the merged list
has length 1, not existing.length + #new names = 2, and the existing name `""` is
absent from the merged result. -/
theorem merge_invariants_counterexample :
    ((mergeEnvOverrides [⟨"", "z"⟩] [⟨"B", "2"⟩]).length
       ≠ ([⟨"", "z"⟩] : List StackEnvVar).length
         + (newOverrideNames [⟨"", "z"⟩] [⟨"B", "2"⟩]).length) ∧
    (∃ x ∈ ([⟨"", "z"⟩] : List StackEnvVar),
       ∀ y ∈ mergeEnvOverrides [⟨"", "z"⟩] [⟨"B", "2"⟩], y.name ≠ x.name) := by decide

/-- C3 (amended): when deduplication leaves no override name the merge is existing
unchanged; otherwise its length is the number of non-empty-named existing entries plus
the number of genuinely new override names, and no non-empty name present in the
existing server-stored list is absent from the merged result. -/
theorem merge_length_and_name_preservation (existing overrides : List StackEnvVar) :
    ((buildOverrideMaps overrides).1.isEmpty = true →
       mergeEnvOverrides existing overrides = existing) ∧
    ((buildOverrideMaps overrides).1.isEmpty = false →
       (mergeEnvOverrides existing overrides).length
         = (existing.filter (fun e => e.name != "")).length
           + (newOverrideNames existing overrides).length) ∧
    (∀ x ∈ existing, x.name ≠ "" →
       ∃ y ∈ mergeEnvOverrides existing overrides, y.name = x.name) :=
  ⟨mergeEnvOverrides_of_isEmpty existing overrides,
   mergeEnvOverrides_length existing overrides,
   mergeEnvOverrides_preserves_names existing overrides⟩

/-- C3 (witness): concrete instance with one existing entry and one new override name. -/
theorem merge_length_and_name_preservation_witness :
    ((buildOverrideMaps [⟨"B", "2"⟩]).1.isEmpty = false ∧
     (mergeEnvOverrides [⟨"A", "1"⟩] [⟨"B", "2"⟩]).length
       = (([⟨"A", "1"⟩] : List StackEnvVar).filter (fun e => e.name != "")).length
         + (newOverrideNames [⟨"A", "1"⟩] [⟨"B", "2"⟩]).length) ∧
    (∃ y ∈ mergeEnvOverrides [⟨"A", "1"⟩] [⟨"B", "2"⟩], y.name = "A") :=
  ⟨⟨by decide, (merge_length_and_name_preservation [⟨"A", "1"⟩] [⟨"B", "2"⟩]).2.1 (by decide)⟩,
   (merge_length_and_name_preservation [⟨"A", "1"⟩] [⟨"B", "2"⟩]).2.2
     ⟨"A", "1"⟩ (by decide) (by decide)⟩

/-- C5: `shouldFallbackToEdge` is exactly the spec's policy — status code 404, or a
case-insensitive edge marker in the body text or the string form; in particular it
accepts every status-404 error and every status error whose body contains "edge stack"
case-insensitively, and rejects a status-403 error with unrelated body text. -/
theorem shouldFallbackToEdge_spec :
    (∀ e, shouldFallbackToEdge e = specShouldFallback e) ∧
    (∀ body, shouldFallbackToEdge (.statusErr 404 body) = true) ∧
    (∀ code body, strContains (toLowerAscii body) "edge stack" = true →
       shouldFallbackToEdge (.statusErr code body) = true) ∧
    shouldFallbackToEdge (.statusErr 403 "forbidden") = false := by
  refine ⟨?_, ?_, ?_, by decide⟩
  · intro e
    cases e with
    | statusErr code body =>
      by_cases h404 : code = 404
      · simp [shouldFallbackToEdge, specShouldFallback, h404]
      · by_cases hbody : isEdgeStackErrorMessage body = true
        · simp [shouldFallbackToEdge, specShouldFallback, ClientError.bodyText, h404, hbody]
        · simp [shouldFallbackToEdge, specShouldFallback, ClientError.bodyText, h404,
            hbody]
    | genericErr msg =>
      simp [shouldFallbackToEdge, specShouldFallback, ClientError.bodyText,
        isEdgeStackErrorMessage_empty]
  · intro body
    simp [shouldFallbackToEdge]
  · intro code body h
    by_cases h404 : code = 404
    · simp [shouldFallbackToEdge, h404]
    · have hbody : isEdgeStackErrorMessage body = true := by
        simp [isEdgeStackErrorMessage, h]
      simp [shouldFallbackToEdge, h404, hbody]

/-- C5 (witness): a status-500 error whose body names an edge stack is classified as
fallback-worthy. -/
theorem shouldFallbackToEdge_spec_witness :
    strContains (toLowerAscii "Unable to find an Edge Stack with this identifier")
        "edge stack" = true ∧
    shouldFallbackToEdge
        (.statusErr 500 "Unable to find an Edge Stack with this identifier") = true :=
  ⟨by decide,
   shouldFallbackToEdge_spec.2.2.1 500
     "Unable to find an Edge Stack with this identifier" (by decide)⟩

/-- A replicated blank entry carries no environment values. -/
theorem hasEnvValues_replicate (n : Nat) :
    hasEnvValues (List.replicate n { name := "", value := "" }) = false := by
  induction n with
  | zero => rfl
  | succ k ih => simp [hasEnvValues, List.replicate_succ, List.any_cons, ih]

/-- A list whose entries were all blanked by the degenerate primary decode carries no
environment values. -/
theorem hasEnvValues_blank (es : List StackEnvVar) :
    hasEnvValues (es.map fun _ => { name := "", value := "" }) = false := by
  rw [List.map_const']
  exact hasEnvValues_replicate es.length

/-- C8: `parseStackEnv` returns the empty result on null/empty input, accepts a zero-entry
primary decode as legitimately empty, retries the alternate shape exactly when the
primary decode yields entries none of which carries a non-empty Name or Value, uses the
alternate decode's entries in that case, and errors exactly when both decodes fail. -/
theorem parseStackEnv_spec :
    (parseStackEnv .nullOrEmpty = .ok []) ∧
    (parseStackEnv (.primaryShape []) = .ok []) ∧
    (∀ raw env, primaryDecode raw = some env → env ≠ [] → hasEnvValues env = false →
       parseStackEnv raw = parseStackEnvAlt raw) ∧
    (∀ es, es ≠ [] → parseStackEnv (.altShape es) = .ok es) ∧
    (∀ raw, exceptIsError (parseStackEnv raw)
       = ((primaryDecode raw).isNone && (altDecode raw).isNone)) := by
  refine ⟨rfl, rfl, ?_, ?_, ?_⟩
  · intro raw env hdec hne hval
    cases raw with
    | nullOrEmpty =>
      exfalso
      apply hne
      simpa [primaryDecode] using hdec.symm
    | primaryShape es =>
      have hes : es = env := by simpa [primaryDecode] using hdec
      subst hes
      have hlen : ¬ es.length = 0 := by simpa [List.length_eq_zero] using hne
      simp [parseStackEnv, primaryDecode, hlen, hval]
    | altShape es =>
      have hesne : es ≠ [] := by
        intro h
        subst h
        apply hne
        simpa [primaryDecode] using hdec.symm
      have hlen : ¬ es.length = 0 := by simpa [List.length_eq_zero] using hesne
      simp [parseStackEnv, primaryDecode, hlen, hasEnvValues_replicate]
    | undecodable => simp [primaryDecode] at hdec
  · intro es hne
    have hlen : ¬ es.length = 0 := by simpa [List.length_eq_zero] using hne
    cases es with
    | nil => exact absurd rfl hne
    | cons e rest =>
      simp [parseStackEnv, primaryDecode, parseStackEnvAlt, altDecode,
        hasEnvValues_replicate, List.replicate_succ, hasEnvValues, List.any_cons]
  · intro raw
    cases raw with
    | nullOrEmpty => rfl
    | undecodable => rfl
    | primaryShape es =>
      cases es with
      | nil => rfl
      | cons e rest =>
        by_cases hval : hasEnvValues (e :: rest) = true
        · simp [parseStackEnv, primaryDecode, altDecode, hval, exceptIsError]
        · have hval2 : hasEnvValues (e :: rest) = false := eq_false_of_ne_true hval
          simp [parseStackEnv, parseStackEnvAlt, primaryDecode, altDecode, hval2,
            exceptIsError]
    | altShape es =>
      cases es with
      | nil => rfl
      | cons e rest =>
        simp [parseStackEnv, parseStackEnvAlt, primaryDecode, altDecode,
          hasEnvValues_replicate, List.replicate_succ, hasEnvValues, List.any_cons,
          exceptIsError]

/-- C8 (witness): on the alternate shape the degenerate primary decode triggers the
alternate-shape retry. -/
theorem parseStackEnv_spec_witness :
    primaryDecode (.altShape [⟨"A", "1"⟩]) = some [⟨"", ""⟩] ∧
    parseStackEnv (.altShape [⟨"A", "1"⟩]) = parseStackEnvAlt (.altShape [⟨"A", "1"⟩]) :=
  ⟨by decide,
   parseStackEnv_spec.2.2.1 (.altShape [⟨"A", "1"⟩]) [⟨"", ""⟩]
     (by decide) (by decide) (by decide)⟩

/-- C9: both known encodings of the one-entry list `[{Name:"X",Value:"y"}]` — the primary
shape and the alternate shape — normalize to the same `StackEnvVar` list. -/
theorem parseStackEnv_both_encodings :
    parseStackEnv (.primaryShape [⟨"X", "y"⟩]) = .ok [⟨"X", "y"⟩] ∧
    parseStackEnv (.altShape [⟨"X", "y"⟩]) = .ok [⟨"X", "y"⟩] := by decide

/-- C1: with url and token configured, a successful detail fetch, and a regular update
failing with a fallback-worthy error, a non-empty override list makes `UpdateStack`
return the UnsupportedError and the edge-update primitive is never invoked. -/
theorem updateStack_overrides_unsupported_on_update_fallback
    (cfg : ClientConfig) (w : UpdateWorld) (id : Int) (file : String)
    (gids : List Int) (ovs : List StackEnvVar)
    (hurl : cfg.serverURL ≠ "") (htok : cfg.token ≠ "")
    (d : Int × List StackEnvVar) (hd : w.details = .ok d)
    (e : ClientError) (he : w.regUpdate = .error e)
    (hfb : shouldFallbackToEdge e = true) (hovs : ovs ≠ []) :
    (UpdateStack cfg w id file gids ovs).result = .error .unsupportedOverrides ∧
    (UpdateStack cfg w id file gids ovs).edgeCall = none := by
  have hlen : 0 < ovs.length := List.length_pos.2 hovs
  constructor <;> simp [UpdateStack, hurl, htok, hd, he, hfb, hlen]

/-- C1 (witness): concrete run with a 404 on the regular update and one override. -/
theorem updateStack_overrides_unsupported_witness :
    (UpdateStack ⟨"url", "tok"⟩
        ⟨.ok (1, []), .error (.statusErr 404 ""), .ok ()⟩ 7 "file" [1]
        [⟨"A", "1"⟩]).result = .error .unsupportedOverrides ∧
    (UpdateStack ⟨"url", "tok"⟩
        ⟨.ok (1, []), .error (.statusErr 404 ""), .ok ()⟩ 7 "file" [1]
        [⟨"A", "1"⟩]).edgeCall = none :=
  updateStack_overrides_unsupported_on_update_fallback
    ⟨"url", "tok"⟩ ⟨.ok (1, []), .error (.statusErr 404 ""), .ok ()⟩ 7 "file" [1]
    [⟨"A", "1"⟩] (by decide) (by decide) (1, []) rfl (.statusErr 404 "") rfl
    (by decide) (by decide)

/-- C6: without a configured server url or token, `UpdateStack` with an empty override
list delegates directly to the edge-update primitive with the given file and group ids
and returns its (wrapped) result, and `UpdateStack` with a non-empty override list
returns the ConfigError without fetching details, without a regular update and without
an edge call. -/
theorem updateStack_unconfigured_spec
    (cfg : ClientConfig) (w : UpdateWorld) (id : Int) (file : String) (gids : List Int)
    (hcfg : cfg.serverURL = "" ∨ cfg.token = "") :
    ((UpdateStack cfg w id file gids []).edgeCall = some (id, file, gids) ∧
     (UpdateStack cfg w id file gids []).detailsFetched = false ∧
     (w.edgeUpdate = .ok () → (UpdateStack cfg w id file gids []).result = .ok ()) ∧
     (∀ ee, w.edgeUpdate = .error ee →
        (UpdateStack cfg w id file gids []).result = .error (.edgeUpdateFailed ee))) ∧
    (∀ ovs, ovs ≠ [] →
       (UpdateStack cfg w id file gids ovs).result = .error .configOverrides ∧
       (UpdateStack cfg w id file gids ovs).detailsFetched = false ∧
       (UpdateStack cfg w id file gids ovs).regUpdateEnv = none ∧
       (UpdateStack cfg w id file gids ovs).edgeCall = none) := by
  have hgate : (cfg.serverURL != "" && cfg.token != "") = false := by
    rcases hcfg with h | h <;> simp [h]
  constructor
  · refine ⟨?_, ?_, ?_, ?_⟩
    · cases hu : w.edgeUpdate <;> simp [UpdateStack, hgate, hu]
    · cases hu : w.edgeUpdate <;> simp [UpdateStack, hgate, hu]
    · intro hu; simp [UpdateStack, hgate, hu]
    · intro ee hu; simp [UpdateStack, hgate, hu]
  · intro ovs hovs
    have hlen : 0 < ovs.length := List.length_pos.2 hovs
    refine ⟨?_, ?_, ?_, ?_⟩ <;> simp [UpdateStack, hgate, hlen]

/-- C6 (witness): concrete unconfigured client, both override cases. -/
theorem updateStack_unconfigured_witness :
    ((UpdateStack ⟨"", "tok"⟩ ⟨.ok (1, []), .ok (), .ok ()⟩ 3 "f" [2, 5] []).edgeCall
       = some (3, "f", [2, 5]) ∧
     (UpdateStack ⟨"", "tok"⟩ ⟨.ok (1, []), .ok (), .ok ()⟩ 3 "f" [2, 5] []).result
       = .ok ()) ∧
    (UpdateStack ⟨"", "tok"⟩ ⟨.ok (1, []), .ok (), .ok ()⟩ 3 "f" [2, 5]
        [⟨"A", "1"⟩]).result = .error .configOverrides :=
  ⟨⟨(updateStack_unconfigured_spec ⟨"", "tok"⟩ ⟨.ok (1, []), .ok (), .ok ()⟩ 3 "f" [2, 5]
       (Or.inl rfl)).1.1,
    (updateStack_unconfigured_spec ⟨"", "tok"⟩ ⟨.ok (1, []), .ok (), .ok ()⟩ 3 "f" [2, 5]
       (Or.inl rfl)).1.2.2.1 rfl⟩,
   ((updateStack_unconfigured_spec ⟨"", "tok"⟩ ⟨.ok (1, []), .ok (), .ok ()⟩ 3 "f" [2, 5]
       (Or.inl rfl)).2 [⟨"A", "1"⟩] (by decide)).1⟩

/-- C4: `GetStacks` returns the converted regular items (each with an empty
environment-group list) when the regular list succeeds non-empty; otherwise the edge
path is called and its converted items returned on success; when the edge path fails
the composite error is returned if the regular path also failed, else the edge-specific
error alone. -/
theorem getStacks_spec (fmtTime : Int → String) (w : ListWorld) :
    (∀ rs, w.regular = .ok rs → rs ≠ [] →
       GetStacks fmtTime w =
         { result := .ok (rs.map (ConvertRegularStackToStack fmtTime)),
           edgeCalled := false }) ∧
    (∀ r, (ConvertRegularStackToStack fmtTime r).environmentGroupIds = []) ∧
    ((w.regular = .ok [] ∨ ∃ e, w.regular = .error e) →
       (GetStacks fmtTime w).edgeCalled = true) ∧
    ((w.regular = .ok [] ∨ ∃ e, w.regular = .error e) → ∀ es, w.edge = .ok es →
       (GetStacks fmtTime w).result = .ok (es.map (ConvertEdgeStackToStack fmtTime))) ∧
    (∀ e ee, w.regular = .error e → w.edge = .error ee →
       (GetStacks fmtTime w).result = .error (.composite e ee)) ∧
    (∀ ee, w.regular = .ok [] → w.edge = .error ee →
       (GetStacks fmtTime w).result = .error (.edgeOnly ee)) := by
  refine ⟨?_, ?_, ?_, ?_, ?_, ?_⟩
  · intro rs hreg hne
    have hlen : 0 < rs.length := List.length_pos.2 hne
    simp [GetStacks, hreg, hlen]
  · intro r
    rfl
  · rintro (hreg | ⟨e, hreg⟩) <;> cases hedge : w.edge <;> simp [GetStacks, hreg, hedge]
  · rintro (hreg | ⟨e, hreg⟩) es hedge <;> simp [GetStacks, hreg, hedge]
  · intro e ee hreg hedge
    simp [GetStacks, hreg, hedge]
  · intro ee hreg hedge
    simp [GetStacks, hreg, hedge]

/-- C4 (witness): an empty regular list with a failing edge list yields the edge-specific
error, with the edge path recorded as called. -/
theorem getStacks_spec_witness :
    (GetStacks (fun _ => "") ⟨.ok [], .error "edge down"⟩).edgeCalled = true ∧
    (GetStacks (fun _ => "") ⟨.ok [], .error "edge down"⟩).result
      = .error (.edgeOnly "edge down") :=
  ⟨(getStacks_spec (fun _ => "") ⟨.ok [], .error "edge down"⟩).2.2.1 (Or.inl rfl),
   (getStacks_spec (fun _ => "") ⟨.ok [], .error "edge down"⟩).2.2.2.2.2 "edge down"
     rfl rfl⟩

/-- Unfolding of `dedupFirst` on a cons cell. -/
theorem dedupFirst_cons (x : String) (xs : List String) :
    dedupFirst (x :: xs) = x :: (dedupFirst xs).filter (fun y => y != x) := rfl

/-- Deduplication keeping first occurrences commutes with filtering. -/
theorem dedupFirst_filter (q : String → Bool) (l : List String) :
    (dedupFirst l).filter q = dedupFirst (l.filter q) := by
  induction l with
  | nil => rfl
  | cons x xs ih =>
    rw [dedupFirst_cons]
    cases hq : q x with
    | true =>
      rw [List.filter_cons_of_pos hq, List.filter_cons_of_pos hq, dedupFirst_cons, ← ih,
        List.filter_filter, List.filter_filter]
      congr 1
      refine List.filter_congr ?_
      intro a _
      exact Bool.and_comm _ _
    | false =>
      rw [List.filter_cons_of_neg (by simp [hq]), List.filter_cons_of_neg (by simp [hq]),
        ← ih, List.filter_filter]
      refine List.filter_congr ?_
      intro a _
      by_cases hax : a = x
      · subst hax; simp [hq]
      · simp [hax]

/-- The name-collection loop of `GetStackEnvNames` is the first-occurrence deduplication
of the names that are non-empty and not in the initial seen set. -/
theorem envNamesLoop_eq (l : List StackEnvVar) :
    ∀ seen, envNamesLoop l seen
      = dedupFirst ((l.map (fun e => e.name)).filter
          (fun n => n != "" && !seen.contains n)) := by
  induction l with
  | nil => intro seen; rfl
  | cons e rest ih =>
    intro seen
    by_cases h1 : e.name = ""
    · have hstep : envNamesLoop (e :: rest) seen = envNamesLoop rest seen := by
        simp only [envNamesLoop, if_pos (Or.inl h1)]
      have hdrop : ¬ ((e.name != "" && !seen.contains e.name) = true) := by
        simp only [h1, bne_self_eq_false, Bool.false_and]
        exact Bool.false_ne_true
      rw [hstep, List.map_cons, List.filter_cons, if_neg hdrop]
      exact ih seen
    · by_cases h2 : seen.contains e.name = true
      · have hstep : envNamesLoop (e :: rest) seen = envNamesLoop rest seen := by
          simp only [envNamesLoop, if_pos (Or.inr h2)]
        have hdrop : ¬ ((e.name != "" && !seen.contains e.name) = true) := by
          simp only [h2, Bool.not_true, Bool.and_false]
          exact Bool.false_ne_true
        rw [hstep, List.map_cons, List.filter_cons, if_neg hdrop]
        exact ih seen
      · have hcond : ¬ (e.name = "" ∨ seen.contains e.name = true) := not_or.mpr ⟨h1, h2⟩
        have hstep : envNamesLoop (e :: rest) seen
            = e.name :: envNamesLoop rest (e.name :: seen) := by
          simp only [envNamesLoop, if_neg hcond]
        have hkeep : (e.name != "" && !seen.contains e.name) = true := by
          simp only [eq_false_of_ne_true h2, Bool.not_false, Bool.and_true, bne_iff_ne,
            ne_eq, decide_eq_true_eq]
          exact h1
        rw [hstep, List.map_cons, List.filter_cons, if_pos hkeep, dedupFirst_cons,
          ih (e.name :: seen), dedupFirst_filter, List.filter_filter]
        congr 2
        refine List.filter_congr ?_
        intro n _
        by_cases hne : n = e.name
        · subst hne; simp
        · by_cases hc : n ∈ seen <;> simp [hne, hc]

/-- C7: `GetStackEnvNames` returns the ConfigError when url or token is missing; on a
fallback-worthy detail-fetch failure it returns the UnsupportedError without any edge
call; on a successful fetch it returns the non-empty names in original order, blanks
skipped and repeats kept once. -/
theorem getStackEnvNames_spec (cfg : ClientConfig)
    (details : Except ClientError (Int × List StackEnvVar)) :
    ((cfg.serverURL = "" ∨ cfg.token = "") →
       (GetStackEnvNames cfg details).result = .error .configError) ∧
    (cfg.serverURL ≠ "" → cfg.token ≠ "" → ∀ e, details = .error e →
       shouldFallbackToEdge e = true →
       (GetStackEnvNames cfg details).result = .error .unsupportedError ∧
       (GetStackEnvNames cfg details).edgeCalled = false) ∧
    (cfg.serverURL ≠ "" → cfg.token ≠ "" → ∀ eid env, details = .ok (eid, env) →
       (GetStackEnvNames cfg details).result
         = .ok (dedupFirst ((env.map (fun e => e.name)).filter (fun n => n != "")))) := by
  refine ⟨?_, ?_, ?_⟩
  · intro hcfg
    simp [GetStackEnvNames, hcfg]
  · intro hurl htok e hd hfb
    constructor <;> simp [GetStackEnvNames, hurl, htok, hd, hfb]
  · intro hurl htok eid env hd
    simp only [GetStackEnvNames, hd]
    rw [if_neg (by simp [hurl, htok])]
    rw [envNamesLoop_eq env []]
    have hfil : (env.map (fun e => e.name)).filter (fun n => n != "" && !([] : List String).contains n)
        = (env.map (fun e => e.name)).filter (fun n => n != "") := by
      refine List.filter_congr ?_
      intro n _
      simp
    rw [hfil]

/-- C7 (witness): an edge-resolving identifier yields the UnsupportedError, and a missing
server url yields the ConfigError. -/
theorem getStackEnvNames_witness :
    (GetStackEnvNames ⟨"u", "t"⟩ (.error (.statusErr 404 "x"))).result
      = .error .unsupportedError ∧
    (GetStackEnvNames ⟨"", "t"⟩ (.ok (1, [⟨"A", "1"⟩]))).result = .error .configError :=
  ⟨((getStackEnvNames_spec ⟨"u", "t"⟩ (.error (.statusErr 404 "x"))).2.1
      (by decide) (by decide) (.statusErr 404 "x") rfl (by decide)).1,
   (getStackEnvNames_spec ⟨"", "t"⟩ (.ok (1, [⟨"A", "1"⟩]))).1 (Or.inl rfl)⟩

/-- One entry fails the handler's checks exactly when it is not an object carrying a
non-empty string name and a string value. -/
theorem parseEntry_error_iff (e : JEntry) :
    exceptIsError (parseEntry e) = !entryValid e := by
  cases e with
  | nonObj => rfl
  | obj fields =>
    cases hn : List.lookup "name" fields with
    | none => simp [parseEntry, entryValid, hn, exceptIsError]
    | some v =>
      cases v with
      | other => simp [parseEntry, entryValid, hn, exceptIsError]
      | str n =>
        by_cases hne : n = ""
        · subst hne
          cases hv : List.lookup "value" fields with
          | none => simp [parseEntry, entryValid, hn, hv, exceptIsError]
          | some v2 =>
            cases v2 <;> simp [parseEntry, entryValid, hn, hv, exceptIsError]
        · cases hv : List.lookup "value" fields with
          | none => simp [parseEntry, entryValid, hn, hv, hne, exceptIsError]
          | some v2 =>
            cases v2 <;> simp [parseEntry, entryValid, hn, hv, hne, exceptIsError]

/-- The validation loop fails exactly when some entry fails the checks. -/
theorem parseStackEnvOverridesLoop_error (entries : List JEntry) :
    ∀ acc, exceptIsError (parseStackEnvOverridesLoop entries acc)
      = entries.any (fun e => !entryValid e) := by
  induction entries with
  | nil => intro acc; rfl
  | cons e rest ih =>
    intro acc
    cases hp : parseEntry e with
    | error msg =>
      have hval : (!entryValid e) = true := by
        rw [← parseEntry_error_iff, hp]; rfl
      simp [parseStackEnvOverridesLoop, hp, exceptIsError, List.any_cons, hval]
    | ok v =>
      have hval : (!entryValid e) = false := by
        rw [← parseEntry_error_iff, hp]; rfl
      simp [parseStackEnvOverridesLoop, hp, List.any_cons, hval, ih]

/-- C10: the handler's override parsing errors exactly when some entry of the
envOverrides array is not an object carrying a non-empty string name and a string
value — in which case the client's `UpdateStack` is never invoked — and an absent or
empty envOverrides array yields the empty non-nil override list, still passed to
`UpdateStack` with the other arguments. -/
theorem handleUpdateStack_override_boundary (id : Int) (file : String) (gids : List Int)
    (entries : List JEntry) (ur : Except String Unit) :
    (exceptIsError (parseStackEnvOverrides entries)
       = entries.any (fun e => !entryValid e)) ∧
    (exceptIsError (parseStackEnvOverrides entries) = true →
       (HandleUpdateStack id file gids entries ur).updateCalled = none) ∧
    ((HandleUpdateStack id file gids [] ur).updateCalled
       = some (id, file, gids, some [])) := by
  refine ⟨?_, ?_, ?_⟩
  · cases entries with
    | nil => rfl
    | cons e rest =>
      have hlen : ¬ (e :: rest).length = 0 := by simp
      simp only [parseStackEnvOverrides, if_neg hlen]
      rw [← parseStackEnvOverridesLoop_error (e :: rest) []]
      cases parseStackEnvOverridesLoop (e :: rest) [] <;> rfl
  · intro herr
    cases hp : parseStackEnvOverrides entries with
    | error msg => simp [HandleUpdateStack, hp]
    | ok v => rw [hp] at herr; cases herr
  · cases ur <;> simp [HandleUpdateStack, parseStackEnvOverrides]

/-- C10 (witness): a non-object entry makes the parse fail and suppresses the update
call. -/
theorem handleUpdateStack_witness :
    exceptIsError (parseStackEnvOverrides [JEntry.nonObj]) = true ∧
    (HandleUpdateStack 5 "f" [2] [JEntry.nonObj] (.ok ())).updateCalled = none :=
  ⟨by decide,
   (handleUpdateStack_override_boundary 5 "f" [2] [JEntry.nonObj] (.ok ())).2.1
     (by decide)⟩
